import Mathlib

/-!
# Verification of the Apple Podcasts episode scraper core

Shallow embedding of the two core components of `src/main.js`:

* the **Collector**: the `page.evaluate` incremental scroll-and-extract loop
  (lines 148-212), modelled as a step function on an explicit loop state over
  an abstract row source `Nat → List Row` (the snapshot of the episode list
  container at each loop iteration; the browser DOM cannot change during the
  synchronous part of an iteration, only across the `await sleep(800)`),
* the **Normalizer**: `normalizeDate` (lines 217-292), modelled as a pure
  function of the raw string together with the ambient clock (`new Date()`,
  an instant `now` in seconds since the Unix epoch) and the machine's UTC
  offset `off` in minutes east of UTC (JavaScript `Date` field getters,
  setters and the `Date(y, m, d)` constructor work in local time, while
  `toISOString` works in UTC).

Calendar arithmetic uses the standard civil-from-days / days-from-civil
algorithms over `Int` with floor division (`Int.ediv` with positive divisors
is floor division), which is exactly the proleptic-Gregorian normalization
JavaScript `Date` performs on out-of-range field values.
-/

namespace Scraper

/-! ## Civil (proleptic Gregorian) calendar arithmetic -/

/-- Local broken-down date: `year`, 0-based `month` (as JS `getMonth`), day of month. -/
structure Civil where
  year : Int
  month : Int
  day : Int
deriving DecidableEq, Repr

/-- Days since 1970-01-01 of the civil date `(y, m1, d)` with 1-based month
`m1 ∈ [1,12]`; the day `d` may lie outside the month, the result extends
linearly (field-overflow normalization, as the JS `Date` constructor does). -/
def daysFromCivilBase (y m1 d : Int) : Int :=
  let yAdj := if m1 ≤ 2 then y - 1 else y
  let era := yAdj / 400
  let yoe := yAdj - era * 400
  let mp := if m1 ≤ 2 then m1 + 9 else m1 - 3
  let doy := (153 * mp + 2) / 5 + d - 1
  let doe := yoe * 365 + yoe / 4 - yoe / 100 + doy
  era * 146097 + doe - 719468

/-- Days since 1970-01-01 of `(y, m0, d)` with 0-based month `m0` (as the JS
`Date` constructor and `setMonth` take it); both month and day may be out of
range and are normalized by rolling over, exactly as JS `Date` does. -/
def daysFromCivil (y m0 d : Int) : Int :=
  let y' := y + m0 / 12
  let m' := m0 % 12
  daysFromCivilBase y' (m' + 1) d

/-- Inverse of `daysFromCivilBase`: the civil date of a day number
(0-based month in the result, matching JS `getMonth`). -/
def civilFromDays (z : Int) : Civil :=
  let z' := z + 719468
  let era := z' / 146097
  let doe := z' - era * 146097
  let yoe :=
    (doe - doe / 1460 + doe / 36524 - doe / 146096) / 365
  let y := yoe + era * 400
  let doy := doe - (365 * yoe + yoe / 4 - yoe / 100)
  let mp := (5 * doy + 2) / 153
  let d := doy - (153 * mp + 2) / 5 + 1
  let m1 := if mp < 10 then mp + 3 else mp - 9
  { year := if m1 ≤ 2 then y + 1 else y, month := m1 - 1, day := d }

/-! ## Instants, local time and formatting

An instant is `Int` seconds since the Unix epoch (the code's millisecond
resolution is irrelevant to every property below).  `off` is the machine's
UTC offset in minutes east of UTC, so local clock seconds are `t + off * 60`. -/

/-- The local calendar day number of instant `t` at offset `off`. -/
def localDayNum (off t : Int) : Int :=
  (t + off * 60) / 86400

/-- The local second-of-day of instant `t` at offset `off`. -/
def localSod (off t : Int) : Int :=
  (t + off * 60) % 86400

/-- `getFullYear()` of instant `t` at offset `off`. -/
def localYear (off t : Int) : Int :=
  (civilFromDays (localDayNum off t)).year

/-- `now.setDate(now.getDate() - amount)`: rewrite the local day-of-month
field, letting the date library normalize overflow; time of day preserved. -/
def setDateMinus (off t amount : Int) : Int :=
  let c := civilFromDays (localDayNum off t)
  daysFromCivil c.year c.month (c.day - amount) * 86400 + localSod off t - off * 60

/-- `now.setMonth(now.getMonth() - amount)`: rewrite the local month field,
letting the date library normalize overflow (e.g. Mar 31 minus one month is
Feb 31, which rolls to Mar 2 or Mar 3). -/
def setMonthMinus (off t amount : Int) : Int :=
  let c := civilFromDays (localDayNum off t)
  daysFromCivil c.year (c.month - amount) c.day * 86400 + localSod off t - off * 60

/-- `now.setFullYear(now.getFullYear() - amount)`: rewrite the local year
field (e.g. Feb 29 2024 minus one year is Feb 29 2023, which rolls to Mar 1). -/
def setFullYearMinus (off t amount : Int) : Int :=
  let c := civilFromDays (localDayNum off t)
  daysFromCivil (c.year - amount) c.month c.day * 86400 + localSod off t - off * 60

/-- `new Date(y, m0, d)` as an instant: local midnight of the (normalized)
date, including the JS quirk that a constructor year in `0..99` means
`1900 + year`. -/
def mkDateLocal (off y m0 d : Int) : Int :=
  daysFromCivil (if 0 ≤ y ∧ y ≤ 99 then y + 1900 else y) m0 d * 86400 - off * 60

/-- `'January'..'December'` (used by `toLocaleDateString('en-GB', { month: 'long' })`). -/
def monthLongName (m0 : Int) : String :=
  List.getD
    ["January", "February", "March", "April", "May", "June", "July", "August",
     "September", "October", "November", "December"] m0.toNat ""

/-- `toLocaleDateString('en-GB', { day: 'numeric', month: 'long', year: 'numeric' })`
of the local calendar day `z`: e.g. `"14 November 2024"`. -/
def fullOfDay (z : Int) : String :=
  let c := civilFromDays z
  toString c.day ++ " " ++ monthLongName c.month ++ " " ++ toString c.year

/-- Left-pad a digit string with zeros to width `k`. -/
def zeroPad (k : Nat) (s : String) : String :=
  String.mk (List.replicate (k - s.length) '0') ++ s

/-- `toISOString().slice(0, 10)` of the UTC calendar day `z`: `"YYYY-MM-DD"`. -/
def isoOfDay (z : Int) : String :=
  let c := civilFromDays z
  zeroPad 4 (toString c.year.toNat) ++ "-" ++ zeroPad 2 (toString (c.month.toNat + 1))
    ++ "-" ++ zeroPad 2 (toString c.day.toNat)

/-- The normalizer's result record `{ full, iso }`.  `full` is an
`Option String` because on absent input the code echoes the absent value. -/
structure NormResult where
  full : Option String
  iso : Option String
deriving DecidableEq, Repr

/-- The two success-path formats: `full` from the local calendar day of the
instant (`toLocaleDateString`), `iso` from its UTC calendar day
(`toISOString().slice(0, 10)`). -/
def formatResult (off t : Int) : NormResult :=
  { full := some (fullOfDay (localDayNum off t)),
    iso := some (isoOfDay (t / 86400)) }

/-! ## String processing of `normalizeDate`

These mirror the JS string methods character by character (structural
recursion over `List Char`, so that all of them compute by kernel
reduction); inputs are ASCII, where ASCII-case mapping and ASCII whitespace
agree with the JS methods. -/

/-- The whitespace class of `\s` and `trim()` restricted to ASCII. -/
def isWsChar (c : Char) : Bool :=
  c == ' ' || c == '\t' || c == '\n' || c == '\r'

/-- Drop leading and trailing whitespace from a character list (`trim()`). -/
def trimChars (l : List Char) : List Char :=
  ((l.dropWhile isWsChar).reverse.dropWhile isWsChar).reverse

/-- `raw.replace(/,/g, '')`. -/
def stripCommas (s : String) : String :=
  String.mk (s.toList.filter (fun c => c ≠ ','))

/-- `raw.replace(/,/g, '').trim().toUpperCase()`. -/
def cleanStr (raw : String) : String :=
  String.mk ((trimChars ((stripCommas raw).toList)).map Char.toUpper)

/-- Tail of `s.split(/\s+/)`: accumulate the current token (reversed) and
emit it at each whitespace run. -/
def splitWsAux : List Char → List Char → List String
  | [], acc => if acc.isEmpty then [] else [String.mk acc.reverse]
  | c :: cs, acc =>
    if isWsChar c then
      if acc.isEmpty then splitWsAux cs []
      else String.mk acc.reverse :: splitWsAux cs []
    else splitWsAux cs (c :: acc)

/-- `s.split(/\s+/)` on an already-trimmed string: the whitespace-separated
tokens. -/
def splitWs (s : String) : List String :=
  splitWsAux s.toList []

/-- `parseInt(p, 10)` on an all-digit token. -/
def parseDigits (p : String) : Nat :=
  p.toList.foldl (fun n c => n * 10 + (c.toNat - 48)) 0

/-- `p.slice(0, 3)`. -/
def firstThree (p : String) : String :=
  String.mk (p.toList.take 3)

/-- `/^\d{1,2}$/.test(p)`. -/
def isDayToken (p : String) : Bool :=
  (p.toList.length == 1 || p.toList.length == 2) && p.toList.all Char.isDigit

/-- `/^\d{4}$/.test(p)`. -/
def isYearToken (p : String) : Bool :=
  p.toList.length == 4 && p.toList.all Char.isDigit

/-- The month-abbreviation table `months` of the code: `JAN: 0 .. DEC: 11`;
`none` when `months.hasOwnProperty` is false. -/
def monthIdx (m : String) : Option Int :=
  match m with
  | "JAN" => some 0
  | "FEB" => some 1
  | "MAR" => some 2
  | "APR" => some 3
  | "MAY" => some 4
  | "JUN" => some 5
  | "JUL" => some 6
  | "AUG" => some 7
  | "SEP" => some 8
  | "OCT" => some 9
  | "NOV" => some 10
  | "DEC" => some 11
  | _ => none

/-- The units of the relative-date regex. -/
inductive RelUnit where
  | second
  | minute
  | hour
  | day
  | week
  | month
  | year
deriving DecidableEq, Repr

/-- The `(SECOND|MINUTE|HOUR|DAY|WEEK|MONTH|YEAR)S?` alternative of the
relative-date regex, on an uppercased token. -/
def unitOfToken (b : String) : Option RelUnit :=
  match b with
  | "SECOND" | "SECONDS" => some RelUnit.second
  | "MINUTE" | "MINUTES" => some RelUnit.minute
  | "HOUR" | "HOURS" => some RelUnit.hour
  | "DAY" | "DAYS" => some RelUnit.day
  | "WEEK" | "WEEKS" => some RelUnit.week
  | "MONTH" | "MONTHS" => some RelUnit.month
  | "YEAR" | "YEARS" => some RelUnit.year
  | _ => none

/-- `s.match(/^(\d+)\s+(SECOND|...|YEAR)S?\s+AGO$/i)` on the cleaned
(trimmed, uppercased) string: the anchored regex matches exactly when the
string consists of three whitespace-separated tokens of the given shapes. -/
def parseRelative (s : String) : Option (Nat × RelUnit) :=
  match splitWs s with
  | [a, b, c] =>
    if a ≠ "" ∧ a.toList.all Char.isDigit ∧ c = "AGO" then
      (unitOfToken b).map (fun u => (parseDigits a, u))
    else none
  | _ => none

/-- The year recognized from an optional third token:
`parts.length >= 3 && /^\d{4}$/.test(parts[2])`. -/
def yearOfRest (rest : List String) : Option Int :=
  match rest with
  | p2 :: _ => if isYearToken p2 then some (parseDigits p2 : Int) else none
  | [] => none

/-- The absolute-date tokenizer of `normalizeDate` (patterns
"Day Month [Year]" and "Month Day [Year]").  Returns `(day, month, year?)`
exactly when the code ends with `month !== null && day !== null`; note the
code commits to pattern 1 whenever the first token is a 1-2 digit number,
even if the month then fails to match (no fallthrough to pattern 2). -/
def parseAbsolute (s : String) : Option (Int × Int × Option Int) :=
  match splitWs s with
  | p0 :: p1 :: rest =>
    if isDayToken p0 then
      match monthIdx (firstThree p1) with
      | some m => some ((parseDigits p0 : Int), m, yearOfRest rest)
      | none => none
    else if isDayToken p1 then
      match monthIdx (firstThree p0) with
      | some m => some ((parseDigits p1 : Int), m, yearOfRest rest)
      | none => none
    else none
  | _ => none

/-- Model of the engine-defined `Date.parse` fallback (`Date.parse(s)` at
line 281).  ECMA-262 only specifies parsing of (extended) ISO 8601 forms;
this model accepts the date-only form `YYYY-MM-DD` (interpreted as UTC
midnight, as the standard requires) and treats every other string as
unparseable (`NaN`).  Every string any claim routes through this fallback
(e.g. `"GARBAGE TEXT"`) is `NaN` under any conforming engine. -/
def jsDateParse (s : String) : Option Int :=
  match s.toList with
  | [a, b, c, d, '-', e, f, '-', g, h] =>
    if ([a, b, c, d, e, f, g, h].all Char.isDigit) then
      let y : Int := (parseDigits (String.mk [a, b, c, d]) : Int)
      let mo : Int := (parseDigits (String.mk [e, f]) : Int)
      let dy : Int := (parseDigits (String.mk [g, h]) : Int)
      if 1 ≤ mo ∧ mo ≤ 12 ∧ 1 ≤ dy ∧ dy ≤ 31 then
        some (daysFromCivilBase y mo dy * 86400)
      else none
    else none
  | _ => none

/-- `case 'SECOND' .. case 'YEAR'` of the relative branch: subtract `amount`
units from `now`.  For fixed-offset local time, rewriting the seconds,
minutes or hours field is exactly subtracting that many seconds; the
day/month/year cases rewrite the corresponding local calendar field. -/
def relSub (off now : Int) (amount : Nat) : RelUnit → Int
  | RelUnit.second => now - (amount : Int)
  | RelUnit.minute => now - 60 * (amount : Int)
  | RelUnit.hour => now - 3600 * (amount : Int)
  | RelUnit.day => setDateMinus off now (amount : Int)
  | RelUnit.week => setDateMinus off now ((amount : Int) * 7)
  | RelUnit.month => setMonthMinus off now (amount : Int)
  | RelUnit.year => setFullYearMinus off now (amount : Int)

/-- The `normalizeDate` arrow function (lines 217-292).  `now` is the ambient
clock (`new Date()`), `off` the machine's UTC offset in minutes east of UTC;
`raw` is `none` for an absent (`undefined`/`null`) date.  `year || ...` is a
JS truthiness test, so a parsed year of `0` behaves like a missing year. -/
def normalizeDate (now off : Int) (raw : Option String) : NormResult :=
  match raw with
  | none => { full := none, iso := none }
  | some rawS =>
    let s := cleanStr rawS
    match parseRelative s with
    | some (amount, u) => formatResult off (relSub off now amount u)
    | none =>
      match parseAbsolute s with
      | some (d, m, yOpt) =>
        let yT : Option Int :=
          match yOpt with
          | some y => if y = 0 then none else some y
          | none => none
        let cy : Int :=
          match yT with
          | some y => y
          | none => localYear off now
        let t := mkDateLocal off cy m d
        let t2 :=
          if yT = none then (if now < t then mkDateLocal off (cy - 1) m d else t) else t
        formatResult off t2
      | none =>
        match jsDateParse s with
        | some t => formatResult off t
        | none => { full := some rawS, iso := none }

/-! ## The Collector: the `page.evaluate` scroll-and-extract loop

A row source is `Nat → List Row`: the snapshot of
`ol[data-testid="episodes-list"] > li` at the start of loop iteration `t`.
All `getRows()` calls within one iteration see the same snapshot, because the
loop body is synchronous between two `await sleep(800)` suspension points and
the page is single-threaded. -/

/-- One list row, with its four extracted fields.  Each field is the trimmed
`textContent` (resp. `href`) of the sub-element, or `none` when the
sub-element is missing (the code's `null`). -/
structure Row where
  title : Option String
  description : Option String
  date : Option String
  shareUrl : Option String
deriving DecidableEq, Repr

/-- A record pushed onto `results`; its `title` is always a truthy (nonempty)
string, guaranteed by the `if (title)` guard. -/
structure EpisodeRec where
  title : String
  description : Option String
  date : Option String
  shareUrl : Option String
deriving DecidableEq, Repr

/-- The record a row contributes, or `none` when the row is skipped by the
`if (title)` truthiness guard (missing title element or empty trimmed text). -/
def rowRecord (r : Row) : Option EpisodeRec :=
  match r.title with
  | some t =>
    if t = "" then none
    else some { title := t, description := r.description, date := r.date,
                shareUrl := r.shareUrl }
  | none => none

/-- `results.length ? results[results.length - 1].title : null`. -/
def lastTitle (results : List EpisodeRec) : Option String :=
  (results.getLast?).map EpisodeRec.title

/-- The `for (const row of rows)` body: stop once `results.length >= limit`;
skip rows without a truthy title; push the extracted record unless its title
equals the title of the last pushed record (`title !== last`). -/
def processRows (limit : Nat) : List Row → List EpisodeRec → List EpisodeRec
  | [], results => results
  | r :: rs, results =>
    if limit ≤ results.length then results
    else
      match rowRecord r with
      | some e =>
        if lastTitle results = some e.title then processRows limit rs results
        else processRows limit rs (results ++ [e])
      | none => processRows limit rs results

/-- `const maxStableAttempts = 12`. -/
def maxStableAttempts : Nat := 12

/-- The loop's mutable state: `results`, `prevCount`, `stableAttempts`, and
the iteration index `t` (which snapshot the next iteration will observe). -/
structure LoopState where
  results : List EpisodeRec
  prevCount : Nat
  stableAttempts : Nat
  t : Nat
deriving DecidableEq, Repr

/-- State before the first iteration. -/
def initState : LoopState :=
  { results := [], prevCount := 0, stableAttempts := 0, t := 0 }

/-- The `while` condition:
`results.length < limit && stableAttempts < maxStableAttempts`. -/
def guardB (limit : Nat) (s : LoopState) : Bool :=
  decide (s.results.length < limit) && decide (s.stableAttempts < maxStableAttempts)

/-- One loop iteration: scan the current rows into `results`; then re-read
the row count and either record growth (reset `stableAttempts`, new
baseline) or count a stable attempt.  Scrolling and sleeping only influence
the next snapshot, which the row source already determines. -/
def stepCollector (source : Nat → List Row) (limit : Nat) (s : LoopState) : LoopState :=
  let rows := source s.t
  let results' := processRows limit rows s.results
  let currentCount := rows.length
  if s.prevCount < currentCount then
    { results := results', prevCount := currentCount, stableAttempts := 0, t := s.t + 1 }
  else
    { results := results', prevCount := s.prevCount,
      stableAttempts := s.stableAttempts + 1, t := s.t + 1 }

/-- The state after at most `n` iterations of the guarded loop: iterate
`stepCollector` while the `while` condition holds; once the condition fails
the state is frozen, so `runCollector source limit n` for any `n` past the
termination point is the loop's final state. -/
def runCollector (source : Nat → List Row) (limit : Nat) : Nat → LoopState
  | 0 => initState
  | n + 1 =>
    let s := runCollector source limit n
    if guardB limit s then stepCollector source limit s else s

/-- `return results.slice(0, limit)`: the Collector's returned list, read off
after `fuel` iteration opportunities. -/
def collect (source : Nat → List Row) (limit fuel : Nat) : List EpisodeRec :=
  ((runCollector source limit fuel).results).take limit

/-- The truthy titles of a row list, in order. -/
def titlesOf (rows : List Row) : List String :=
  rows.filterMap (fun r => (rowRecord r).map EpisodeRec.title)

/-- The spec-side "number of distinct-adjacent rows" of a row list: the
length of the adjacent-deduplication (by title) of its truthy-titled rows. -/
def distinctAdjacentCount (rows : List Row) : Nat :=
  ((titlesOf rows).destutter (fun a b => a ≠ b)).length

/-! Concrete rows and sources used by counterexamples and witnesses. -/

/-- A row titled `"A"`. -/
def rowA : Row :=
  { title := some "A", description := none, date := none, shareUrl := none }

/-- A row titled `"B"`. -/
def rowB : Row :=
  { title := some "B", description := none, date := none, shareUrl := none }

/-- A row source that always shows the same two rows `A, B` (a page that
never grows past its initial two rows). -/
def srcAB : Nat → List Row := fun _ => [rowA, rowB]

/-- A row source that always shows the single row `A`. -/
def srcA : Nat → List Row := fun _ => [rowA]

/-! ## Helper lemmas about the Collector loop -/

/-- The scan loop preserves adjacent title-distinctness of the accumulator:
a record is only ever appended when its title differs from the title of the
record currently at the end. -/
theorem processRows_chain' (limit : Nat) (rows : List Row) :
    ∀ acc : List EpisodeRec,
      List.Chain' (fun a b => a.title ≠ b.title) acc →
      List.Chain' (fun a b => a.title ≠ b.title) (processRows limit rows acc) := by
  induction rows with
  | nil => intro acc h; exact h
  | cons r rs ih =>
    intro acc h
    by_cases hl : limit ≤ acc.length
    · simpa [processRows, hl] using h
    · cases hr : rowRecord r with
      | none => simpa [processRows, hl, hr] using ih acc h
      | some e =>
        by_cases hd : lastTitle acc = some e.title
        · simpa [processRows, hl, hr, hd] using ih acc h
        · have hch : List.Chain' (fun a b => a.title ≠ b.title) (acc ++ [e]) := by
            rw [List.chain'_append]
            refine ⟨h, List.chain'_singleton e, ?_⟩
            intro x hx y hy
            have hy' : e = y := by simpa using hy
            subst hy'
            intro hEq
            apply hd
            have hx' : acc.getLast? = some x := hx
            simp [lastTitle, hx', hEq]
          simpa [processRows, hl, hr, hd] using ih (acc ++ [e]) hch

/-- The accumulated `results` list is adjacent title-distinct at every point
of the loop. -/
theorem runCollector_chain' (source : Nat → List Row) (limit : Nat) :
    ∀ n, List.Chain' (fun a b => a.title ≠ b.title)
      ((runCollector source limit n).results) := by
  intro n
  induction n with
  | zero => simp [runCollector, initState]
  | succ n ih =>
    rw [runCollector]
    by_cases hg : guardB limit (runCollector source limit n) = true
    · rw [if_pos hg]
      unfold stepCollector
      by_cases hc : (runCollector source limit n).prevCount < (source (runCollector source limit n).t).length
      · simpa [hc] using processRows_chain' limit _ _ ih
      · simpa [hc] using processRows_chain' limit _ _ ih
    · rw [if_neg hg]; exact ih

/-- Skipping lemma: when every remaining row carries the same title as the
record at the end of the accumulator, the scan appends nothing. -/
theorem processRows_all_same (limit : Nat) (t : String) :
    ∀ (rows : List Row) (acc : List EpisodeRec),
      lastTitle acc = some t → (∀ r ∈ rows, r.title = some t) →
      processRows limit rows acc = acc := by
  intro rows
  induction rows with
  | nil => intro acc _ _; rfl
  | cons r rs ih =>
    intro acc hlast hall
    by_cases hl : limit ≤ acc.length
    · simp [processRows, hl]
    · have hrt : r.title = some t := hall r (List.mem_cons_self r rs)
      have hall' : ∀ x ∈ rs, x.title = some t := fun x hx => hall x (List.mem_cons_of_mem r hx)
      by_cases ht : t = ""
      · have hrec : rowRecord r = none := by simp [rowRecord, hrt, ht]
        simpa [processRows, hl, hrec] using ih acc hlast hall'
      · have hrec : rowRecord r
            = some { title := t, description := r.description, date := r.date,
                     shareUrl := r.shareUrl } := by
          simp [rowRecord, hrt, ht]
        have hd : lastTitle acc
            = some (EpisodeRec.title { title := t, description := r.description,
                                       date := r.date, shareUrl := r.shareUrl }) := hlast
        simpa [processRows, hl, hrec, hd] using ih acc hlast hall'

/-- Once the `while` condition fails the loop state is frozen. -/
theorem runCollector_frozen (source : Nat → List Row) (limit n : Nat)
    (h : guardB limit (runCollector source limit n) = false) :
    runCollector source limit (n + 1) = runCollector source limit n := by
  rw [runCollector]; simp [h]

/-- The state stays frozen forever after the `while` condition first fails. -/
theorem runCollector_frozen_forever (source : Nat → List Row) (limit n : Nat)
    (h : guardB limit (runCollector source limit n) = false) :
    ∀ m, runCollector source limit (n + m) = runCollector source limit n := by
  intro m
  induction m with
  | zero => rfl
  | succ m ih =>
    have : n + (m + 1) = (n + m) + 1 := rfl
    rw [this, runCollector]
    simp [ih, h]

/-- If the loop is still running after `n + 1` iteration opportunities it was
still running after `n`. -/
theorem guard_true_of_succ (source : Nat → List Row) (limit n : Nat)
    (h : guardB limit (runCollector source limit (n + 1)) = true) :
    guardB limit (runCollector source limit n) = true := by
  cases hgb : guardB limit (runCollector source limit n) with
  | true => rfl
  | false =>
    rw [runCollector_frozen source limit n hgb, hgb] at h
    exact absurd h (by simp)

/-- After the first executed iteration the growth baseline `prevCount` is at
least the initial row count (the first iteration observes
`currentCount = (source 0).length` against the initial baseline `0`). -/
theorem prevCount_ge_initial (source : Nat → List Row) (limit : Nat) :
    ∀ k, guardB limit (runCollector source limit (k + 1)) = true →
      (source 0).length ≤ (runCollector source limit (k + 1)).prevCount := by
  intro k
  induction k with
  | zero =>
    intro hg
    have hg0 : guardB limit (runCollector source limit 0) = true :=
      guard_true_of_succ source limit 0 hg
    rw [runCollector, if_pos hg0]
    show (source 0).length ≤ (stepCollector source limit initState).prevCount
    unfold stepCollector
    by_cases hc : initState.prevCount < (source initState.t).length
    · simp only [if_pos hc]
      exact Nat.le_refl _
    · simp only [if_neg hc]
      simp only [initState] at hc ⊢
      omega
  | succ k ih =>
    intro hg
    have hg' : guardB limit (runCollector source limit (k + 1)) = true :=
      guard_true_of_succ source limit (k + 1) hg
    have hp := ih hg'
    rw [runCollector, if_pos hg']
    show (source 0).length ≤ (stepCollector source limit (runCollector source limit (k + 1))).prevCount
    unfold stepCollector
    by_cases hc : (runCollector source limit (k + 1)).prevCount
        < (source (runCollector source limit (k + 1)).t).length
    · simp only [if_pos hc]
      omega
    · simp only [if_neg hc]
      exact hp

/-- For a row source that never grows past its initial count, every executed
iteration after the first increments `stableAttempts`. -/
theorem stableAttempts_succ (source : Nat → List Row) (limit : Nat)
    (hs : ∀ t, (source t).length ≤ (source 0).length) (k : Nat)
    (hg : guardB limit (runCollector source limit (k + 1)) = true) :
    (runCollector source limit (k + 2)).stableAttempts
      = (runCollector source limit (k + 1)).stableAttempts + 1 := by
  have hp := prevCount_ge_initial source limit k hg
  have hstep : runCollector source limit (k + 2)
      = stepCollector source limit (runCollector source limit (k + 1)) := by
    rw [runCollector, if_pos hg]
  rw [hstep]
  unfold stepCollector
  have hcur : (source (runCollector source limit (k + 1)).t).length
      ≤ (runCollector source limit (k + 1)).prevCount :=
    Nat.le_trans (hs _) hp
  rw [if_neg (by omega)]

/-- For a never-growing source, `stableAttempts` after `j + 1` executed
iterations is at least `j`. -/
theorem stableAttempts_ge (source : Nat → List Row) (limit : Nat)
    (hs : ∀ t, (source t).length ≤ (source 0).length) :
    ∀ j, guardB limit (runCollector source limit (j + 1)) = true →
      j ≤ (runCollector source limit (j + 1)).stableAttempts := by
  intro j
  induction j with
  | zero => intro _; exact Nat.zero_le _
  | succ j ih =>
    intro hg
    have hg' : guardB limit (runCollector source limit (j + 1)) = true :=
      guard_true_of_succ source limit (j + 1) hg
    have hj := ih hg'
    have hst := stableAttempts_succ source limit hs j hg'
    have heq : j + 1 + 1 = j + 2 := rfl
    rw [heq]
    omega

/-! ## Helper lemmas about the Normalizer's timezone arithmetic -/

/-- A local-midnight instant `dnum * 86400 - o * 60` lies on UTC day `dnum`
exactly when the offset `o` (minutes east of UTC) is nonpositive and greater
than `-1440` (one day): UTC and zones west of it. -/
theorem utcDay_of_local_midnight (dnum o : Int) (h1 : -1440 < o) (h2 : o ≤ 0) :
    (dnum * 86400 - o * 60) / 86400 = dnum := by omega

/-- Reading a local-midnight instant back in local time always lands on the
same calendar day, whatever the offset. -/
theorem localDay_of_local_midnight (dnum o : Int) :
    (dnum * 86400 - o * 60 + o * 60) / 86400 = dnum := by omega

/-- `new Date(y, m, d)` read back through `getDate`-style local truncation is
the constructed calendar day, for every offset. -/
theorem localDayNum_mkDateLocal (off y m0 d : Int) :
    localDayNum off (mkDateLocal off y m0 d)
      = daysFromCivil (if 0 ≤ y ∧ y ≤ 99 then y + 1900 else y) m0 d := by
  unfold localDayNum mkDateLocal
  exact localDay_of_local_midnight _ off

/-- `new Date(y, m, d)` truncated to a UTC day (`toISOString`) is the
constructed calendar day exactly for nonpositive offsets above one day. -/
theorem utcDayNum_mkDateLocal (off y m0 d : Int) (h1 : -1440 < off) (h2 : off ≤ 0) :
    mkDateLocal off y m0 d / 86400
      = daysFromCivil (if 0 ≤ y ∧ y ≤ 99 then y + 1900 else y) m0 d := by
  unfold mkDateLocal
  exact utcDay_of_local_midnight _ off h1 h2

/-! ## C1: Collector output length -/

/-- C1: the claim states that for every positive `limit` and finite,
eventually-stable row source the Collector's output length equals
`min(limit, number of distinct-adjacent rows ever observed)`.  The code
violates the equality: the loop rescans the whole row list every iteration
and deduplicates only against the last pushed record, so with the constant
two-row source `A, B` and `limit = 50` the terminated loop returns 26
records (the pair re-appended on each of 13 iterations) although only 2
distinct-adjacent rows were ever observed.  The `length ≤ limit` half
(truncation by `slice(0, limit)`) does hold. -/
theorem c1_rescan_duplication :
    guardB 50 (runCollector srcAB 50 13) = false ∧
    (collect srcAB 50 13).length = 26 ∧
    min 50 (distinctAdjacentCount (srcAB 0)) = 2 ∧
    (collect srcAB 50 13).length ≤ 50 := by
  refine ⟨by decide, by decide, by decide, by decide⟩

/-! ## C2: adjacent-duplicate suppression -/

/-- C2: no two adjacent records of the Collector's output share a title; a
nonempty run of rows all bearing one (truthy) title contributes exactly one
record (title list `[t]`); and non-adjacent duplicate titles are not
filtered (scanning `A, B, A` yields all three records). -/
theorem c2_adjacent_dedup :
    (∀ (source : Nat → List Row) (limit fuel : Nat),
        List.Chain' (fun a b => a.title ≠ b.title) (collect source limit fuel)) ∧
    (∀ (r0 : Row) (rs : List Row) (t : String) (limit : Nat),
        r0.title = some t → t ≠ "" → (∀ r ∈ rs, r.title = some t) → 1 ≤ limit →
        (processRows limit (r0 :: rs) []).map EpisodeRec.title = [t]) ∧
    (processRows 10 [rowA, rowB, rowA] []).map EpisodeRec.title = ["A", "B", "A"] := by
  refine ⟨?_, ?_, by decide⟩
  · intro source limit fuel
    exact (runCollector_chain' source limit fuel).take limit
  · intro r0 rs t limit h0 ht hall hlim
    have hl : ¬ limit ≤ ([] : List EpisodeRec).length := by simp; omega
    have hrec : rowRecord r0
        = some { title := t, description := r0.description, date := r0.date,
                 shareUrl := r0.shareUrl } := by
      simp [rowRecord, h0, ht]
    have hd : ¬ lastTitle ([] : List EpisodeRec)
        = some (EpisodeRec.title { title := t, description := r0.description,
                                   date := r0.date, shareUrl := r0.shareUrl }) := by
      simp [lastTitle]
    have hrest := processRows_all_same limit t rs
      [{ title := t, description := r0.description, date := r0.date,
         shareUrl := r0.shareUrl }] (by simp [lastTitle]) hall
    have hone : processRows limit (r0 :: rs) []
        = [{ title := t, description := r0.description, date := r0.date,
             shareUrl := r0.shareUrl }] := by
      simp [processRows, hl, hrec, hd, hrest]
      omega
    rw [hone]
    rfl

/-- Witness for C2: applying the theorem at a concrete three-row run of
title `"A"`, discharging each hypothesis by evaluation. -/
theorem c2_adjacent_dedup_witness :
    (processRows 5 [rowA, rowA, rowA] []).map EpisodeRec.title = ["A"] :=
  c2_adjacent_dedup.2.1 rowA [rowA, rowA] "A" 5 (by decide) (by decide)
    (by decide) (by decide)

/-! ## C3: plateau termination -/

/-- C3 counterexample: the claim states that a row source that never grows
beyond its initial count makes the loop terminate within
`maxStableAttempts = 12` iterations regardless of `limit`.  With the
constant one-row source and `limit = 2`, the `while` condition still holds
after 12 iteration opportunities (so a 13th iteration executes) and the loop
has performed exactly 13 iterations when it stops: the very first look at
the nonempty initial row set counts as growth against the baseline `0` and
resets `stableAttempts`. -/
theorem c3_thirteen_iterations :
    guardB 2 (runCollector srcA 2 12) = true ∧
    guardB 2 (runCollector srcA 2 13) = false ∧
    (runCollector srcA 2 13).t = 13 := by
  refine ⟨by decide, by decide, by decide⟩

/-- C3 as amended: for every `limit` and every row source that never grows
beyond its initial row count, the loop has terminated within
`maxStableAttempts + 1 = 13` iterations (the extra iteration pays for the
initial observation registering as growth from the baseline `0`), and the
state is frozen from that point on. -/
theorem c3_plateau_termination (source : Nat → List Row) (limit : Nat)
    (hs : ∀ t, (source t).length ≤ (source 0).length) :
    guardB limit (runCollector source limit (maxStableAttempts + 1)) = false ∧
    ∀ m, runCollector source limit (maxStableAttempts + 1 + m)
        = runCollector source limit (maxStableAttempts + 1) := by
  have hguard : guardB limit (runCollector source limit (maxStableAttempts + 1)) = false := by
    cases hgb : guardB limit (runCollector source limit (maxStableAttempts + 1)) with
    | false => rfl
    | true =>
      have hge := stableAttempts_ge source limit hs maxStableAttempts hgb
      have hlt : (runCollector source limit (maxStableAttempts + 1)).stableAttempts
          < maxStableAttempts := by
        have := hgb
        unfold guardB at this
        simp only [Bool.and_eq_true, decide_eq_true_eq] at this
        exact this.2
      omega
  exact ⟨hguard, runCollector_frozen_forever source limit _ hguard⟩

/-- Witness for C3: the amended bound applied to the constant one-row source
with `limit = 2`. -/
theorem c3_plateau_termination_witness :
    guardB 2 (runCollector srcA 2 (maxStableAttempts + 1)) = false :=
  (c3_plateau_termination srcA 2 (fun _ => Nat.le_refl 1)).1

/-! ## C4: the "14 NOV 2024" round trip -/

/-- C4 counterexample: the claim states `normalize("14 NOV 2024")` returns
`iso = "2024-11-14"` independently of the machine's local time zone.  The
code constructs local midnight and truncates it with UTC-based
`toISOString`, so at UTC offset +5:30 (330 minutes east, e.g. India, the
region the scraper targets) the returned `iso` names the previous day. -/
theorem c4_tz_dependent_iso :
    normalizeDate 0 330 (some "14 NOV 2024")
      = { full := some "14 November 2024", iso := some "2024-11-13" } ∧
    normalizeDate 0 330 (some "14 NOV 2024")
      ≠ { full := some "14 November 2024", iso := some "2024-11-14" } := by
  refine ⟨by decide, by decide⟩

/-- C4 as amended: `normalize("14 NOV 2024")` always has
`full = "14 November 2024"` (local formatting of a local-midnight instant is
offset-independent), and returns exactly
`{ full: "14 November 2024", iso: "2024-11-14" }` whenever the machine's UTC
offset is nonpositive (UTC or west of it, offsets above one day); the `iso`
is the UTC-based truncation of the resolved local-midnight instant and is
not independent of the machine's time zone. -/
theorem c4_round_trip :
    (∀ now off : Int,
        (normalizeDate now off (some "14 NOV 2024")).full = some "14 November 2024") ∧
    (∀ now off : Int, -1440 < off → off ≤ 0 →
        normalizeDate now off (some "14 NOV 2024")
          = { full := some "14 November 2024", iso := some "2024-11-14" }) := by
  have hred : ∀ now off : Int,
      normalizeDate now off (some "14 NOV 2024")
        = formatResult off (mkDateLocal off 2024 10 14) := fun now off => rfl
  have hDay : daysFromCivil (if 0 ≤ (2024 : Int) ∧ (2024 : Int) ≤ 99
      then (2024 : Int) + 1900 else 2024) 10 14 = 20041 := by decide
  constructor
  · intro now off
    rw [hred]
    show some (fullOfDay (localDayNum off (mkDateLocal off 2024 10 14))) = _
    rw [localDayNum_mkDateLocal, hDay]
    decide
  · intro now off h1 h2
    rw [hred]
    show formatResult off (mkDateLocal off 2024 10 14) = _
    unfold formatResult
    rw [localDayNum_mkDateLocal, utcDayNum_mkDateLocal off 2024 10 14 h1 h2, hDay]
    decide

/-- Witness for C4: the amended statement applied at offset `0` (UTC). -/
theorem c4_round_trip_witness :
    normalizeDate 0 0 (some "14 NOV 2024")
      = { full := some "14 November 2024", iso := some "2024-11-14" } :=
  c4_round_trip.2 0 0 (by decide) (by decide)

/-! ## C5: current/previous-year inference for year-less dates -/

/-- C5: for an absolute input without a year token (and not matching the
relative form), the code assumes the current local year, and switches to the
previous year exactly when the resulting local-midnight date lies strictly
in the future; with the clock at 2024-01-10 UTC and a UTC machine,
`normalize("15 DEC")` resolves to 2023-12-15, not 2024-12-15. -/
theorem c5_year_inference :
    (∀ (rawS : String) (d m now off : Int),
        parseRelative (cleanStr rawS) = none →
        parseAbsolute (cleanStr rawS) = some (d, m, none) →
        now < mkDateLocal off (localYear off now) m d →
        normalizeDate now off (some rawS)
          = formatResult off (mkDateLocal off (localYear off now - 1) m d)) ∧
    normalizeDate (19732 * 86400) 0 (some "15 DEC")
      = { full := some "15 December 2023", iso := some "2023-12-15" } ∧
    normalizeDate (19732 * 86400) 0 (some "15 DEC")
      ≠ { full := some "15 December 2024", iso := some "2024-12-15" } := by
  refine ⟨?_, by decide, by decide⟩
  intro rawS d m now off h1 h2 h3
  simp [normalizeDate, h1, h2, h3]

/-- Witness for C5: the year-inference rule applied to `"15 DEC"` with the
clock at 2024-01-10 UTC, each hypothesis discharged by evaluation. -/
theorem c5_year_inference_witness :
    normalizeDate (19732 * 86400) 0 (some "15 DEC")
      = formatResult 0 (mkDateLocal 0 (localYear 0 (19732 * 86400) - 1) 11 15) :=
  c5_year_inference.1 "15 DEC" 15 11 (19732 * 86400) 0 (by decide) (by decide)
    (by decide)

/-! ## C6: relative dates -/

/-- C6: with the clock at 2024-01-10 UTC on a UTC machine,
`normalize("2 DAYS AGO")` is `{ full: "8 January 2024", iso: "2024-01-08" }`;
`WEEK` subtraction is exactly the calendar-day subtraction of `7 * n` days;
and `MONTH` subtraction is calendar-field arithmetic whose day-of-month
overflow is library-normalized (one month before Mar 31 2024 is Feb 31,
normalized to Mar 2). -/
theorem c6_relative_subtraction :
    normalizeDate (19732 * 86400) 0 (some "2 DAYS AGO")
      = { full := some "8 January 2024", iso := some "2024-01-08" } ∧
    (∀ (off now : Int) (n : Nat),
        relSub off now n RelUnit.week = relSub off now (7 * n) RelUnit.day) ∧
    normalizeDate (19813 * 86400) 0 (some "1 MONTH AGO")
      = { full := some "2 March 2024", iso := some "2024-03-02" } := by
  refine ⟨by decide, ?_, by decide⟩
  intro off now n
  have hcast : ((n : Int)) * 7 = ((7 * n : Nat) : Int) := by push_cast; ring
  simp [relSub, hcast]

/-! ## C7: failure fallback, never throws -/

/-- C7: the normalizer is total; an absent input echoes as
`{ full: input, iso: null }`, a string no parsing attempt can resolve is
echoed unmodified with a null ISO (`normalize("garbage text")`), and in
general whenever `iso` is `null` the `full` field is exactly the original
raw input. -/
theorem c7_failure_fallback :
    (∀ now off : Int, normalizeDate now off none = { full := none, iso := none }) ∧
    (∀ now off : Int,
        normalizeDate now off (some "garbage text")
          = { full := some "garbage text", iso := none }) ∧
    (∀ (now off : Int) (raw : Option String),
        (normalizeDate now off raw).iso = none →
        (normalizeDate now off raw).full = raw) := by
  refine ⟨fun now off => rfl, fun now off => rfl, ?_⟩
  intro now off raw h
  match raw with
  | none => rfl
  | some rawS =>
    cases hr : parseRelative (cleanStr rawS) with
    | some p =>
      obtain ⟨a, u⟩ := p
      simp [normalizeDate, hr, formatResult] at h
    | none =>
      cases ha : parseAbsolute (cleanStr rawS) with
      | some trip =>
        obtain ⟨d, m, yo⟩ := trip
        simp [normalizeDate, hr, ha, formatResult] at h
      | none =>
        cases hj : jsDateParse (cleanStr rawS) with
        | some t => simp [normalizeDate, hr, ha, hj, formatResult] at h
        | none => simp [normalizeDate, hr, ha, hj]

/-- Witness for C7: the `iso = null implies full echoes raw` rule applied to
a concrete unparseable string. -/
theorem c7_failure_fallback_witness :
    (normalizeDate 0 0 (some "total nonsense")).full = some "total nonsense" :=
  c7_failure_fallback.2.2 0 0 (some "total nonsense") (by decide)

/-! ## C8: tokenizing edge cases -/

/-- C8: month matching uses only the first three characters of the token
(`"14 November 2024"` tokenizes like `"14 NOV 2024"`); comma-stripping turns
`"14,"` into `"14"` (so `"Nov 14, 2024"` parses via the Month-Day-Year
pattern to the same date); and a trailing 2-digit number is not a year token
(`"14 NOV 24"` yields no year) so the date falls through to
current/previous-year inference (here, clock at 2024-01-10 UTC, to 2023). -/
theorem c8_token_edge_cases :
    parseAbsolute (cleanStr "14 November 2024") = some (14, 10, some 2024) ∧
    (∀ now : Int, normalizeDate now 0 (some "Nov 14, 2024")
        = { full := some "14 November 2024", iso := some "2024-11-14" }) ∧
    parseAbsolute (cleanStr "14 NOV 24") = some (14, 10, none) ∧
    normalizeDate (19732 * 86400) 0 (some "14 NOV 24")
      = { full := some "14 November 2023", iso := some "2023-11-14" } := by
  have hred : ∀ now : Int,
      normalizeDate now 0 (some "Nov 14, 2024")
        = formatResult 0 (mkDateLocal 0 2024 10 14) := fun now => rfl
  refine ⟨by decide, fun now => ?_, by decide, by decide⟩
  rw [hred now]
  decide

/-! ## C9: purity of the normalizer -/

/-- C9 counterexample: the claim states the normalizer's result is
independent of ambient state such as the current clock time.  The code reads
`new Date()` in the relative branch, so `normalize("2 DAYS AGO")` evaluated
at clock 2024-01-10 differs from the same call at clock 2024-06-10. -/
theorem c9_clock_dependence :
    normalizeDate (19732 * 86400) 0 (some "2 DAYS AGO")
      ≠ normalizeDate (19884 * 86400) 0 (some "2 DAYS AGO") := by decide

/-- C9 as amended: the normalizer is a mathematical function of the raw
string together with the ambient clock instant and UTC offset (it is
deterministic and side-effect free given those), and for absolute inputs
that carry an explicit (truthy) 4-digit year its result does not depend on
the clock at all; relative and year-less inputs do depend on the ambient
clock. -/
theorem c9_determinism_given_clock :
    ∀ (rawS : String) (d m y : Int),
      parseRelative (cleanStr rawS) = none →
      parseAbsolute (cleanStr rawS) = some (d, m, some y) → y ≠ 0 →
      ∀ now1 now2 off : Int,
        normalizeDate now1 off (some rawS) = normalizeDate now2 off (some rawS) := by
  intro rawS d m y h1 h2 hy now1 now2 off
  simp [normalizeDate, h1, h2, hy]

/-- Witness for C9: clock-independence applied to `"14 Nov 2024"` at two
different clock readings, offset +330. -/
theorem c9_determinism_given_clock_witness :
    normalizeDate 0 330 (some "14 Nov 2024")
      = normalizeDate (19732 * 86400) 330 (some "14 Nov 2024") :=
  c9_determinism_given_clock "14 Nov 2024" 14 10 2024 (by decide) (by decide)
    (by decide) 0 (19732 * 86400) 330

/-! ## C10: silent day-of-month overflow -/

/-- C10: `"31 FEB 2024"` matches the Day-Month-Year pattern, and instead of
the parse-failure result the code silently normalizes the out-of-range day
by date-field overflow: the result names 2 March 2024, a different day and
month than written, with a non-null ISO value. -/
theorem c10_day_overflow :
    (∀ now : Int, normalizeDate now 0 (some "31 FEB 2024")
        = { full := some "2 March 2024", iso := some "2024-03-02" }) ∧
    normalizeDate 0 0 (some "31 FEB 2024") ≠ { full := some "31 FEB 2024", iso := none } ∧
    (normalizeDate 0 0 (some "31 FEB 2024")).iso ≠ none := by
  have hred : ∀ now : Int,
      normalizeDate now 0 (some "31 FEB 2024")
        = formatResult 0 (mkDateLocal 0 2024 1 31) := fun now => rfl
  refine ⟨fun now => ?_, by decide, by decide⟩
  rw [hred now]
  decide

end Scraper
